import Mathlib

/-
Verification of the workspace state model and console timeline of the
cpp-forge-ide repository (src/App.tsx, src/types.ts).

The embedding translates the React component's state and handlers into
explicit state-passing functions:
  * the four useState slots become the fields of AppState;
  * event handlers (runCode, createNewFile, deleteFile, saveFiles, the
    explorer onClick) become functions AppState -> ... -> AppState;
  * browser inputs (prompt, confirm, Math.random id, Date.now) become
    explicit parameters;
  * localStorage is a single Option String slot; JSON.stringify and
    JSON.parse on the FileNode array are embedded character-for-character
    (the parser is JSON.parse specialised to the grammar the serializer
    emits; an uncaught parse exception is an Except.error result).
-/

namespace CppForge

set_option maxRecDepth 100000

/-- Language tag of a file buffer; the literal union type 'c' | 'cpp' of
src/types.ts. -/
inductive Lang where
  | c
  | cpp
  deriving DecidableEq, Repr

/-- FileNode record of src/types.ts: id, name, content, language. -/
structure FileNode where
  id : String
  name : String
  content : String
  language : Lang
  deriving DecidableEq, Repr

/-- Kind of a terminal line; the union 'input' | 'output' | 'error' | 'system'
of src/types.ts. -/
inductive LineKind where
  | input
  | output
  | error
  | system
  deriving DecidableEq, Repr

/-- TerminalLine record of src/types.ts: type, content, timestamp.
Date.now() values are modelled as Nat. -/
structure TerminalLine where
  type : LineKind
  content : String
  timestamp : Nat
  deriving DecidableEq, Repr

/-- The four useState slots of the App component (src/App.tsx lines 25-31):
files, activeFileId, terminalLines, isRunning. -/
structure AppState where
  files : List FileNode
  activeFileId : String
  terminalLines : List TerminalLine
  isRunning : Bool
  deriving DecidableEq, Repr

/-- INITIAL_FILES of src/App.tsx lines 7-20: the built-in seed pair
main.cpp / header.h. -/
def INITIAL_FILES : List FileNode :=
  [ { id := "1"
      name := "main.cpp"
      content := "#include <iostream>\n\nint main() \x7b\n    std::cout << \"C++ Forge Professional Edition\" << std::endl;\n    std::cout << \"Local high-performance environment initialized.\" << std::endl;\n    return 0;\n\x7d"
      language := Lang.cpp }
  , { id := "2"
      name := "header.h"
      content := "// Standard utility header\n#ifndef UTILS_H\n#define UTILS_H\n\nvoid greet();\n\n#endif"
      language := Lang.cpp } ]

/-- The component's initial state when the durable slot is absent:
files = INITIAL_FILES, activeFileId = files[0].id (src/App.tsx line 29),
empty terminal, not running. -/
def initialState : AppState :=
  { files := INITIAL_FILES
    activeFileId := ((INITIAL_FILES.head?).map FileNode.id).getD ""
    terminalLines := []
    isRunning := false }

/-- Derived active buffer, src/App.tsx line 33:
files.find(f => f.id === activeFileId) || files[0].
none models the undefined value obtained when the collection is empty. -/
def activeFile (s : AppState) : Option FileNode :=
  (s.files.find? (fun f => f.id == s.activeFileId)).orElse (fun _ => s.files.head?)

/-- The explorer entry onClick handler, src/App.tsx line 133: it invokes the
raw state setter setActiveFileId(id) with no existence check. -/
def setActiveFile (s : AppState) (id : String) : AppState :=
  { s with activeFileId := id }

/-- addLine of src/App.tsx lines 44-46: append one line with the capture
time 'now' standing for Date.now(). -/
def addLine (s : AppState) (content : String) (type : LineKind) (now : Nat) : AppState :=
  { s with terminalLines := s.terminalLines ++ [{ type := type, content := content, timestamp := now }] }

/-- The six lines appended by one complete runCode invocation
(src/App.tsx lines 53-66), in order; ts i is the Date.now() value captured
at the i-th append. -/
def runLines (name : String) (ts : Nat → Nat) : List TerminalLine :=
  [ { type := LineKind.system, content := "$ g++ " ++ name ++ " -o output", timestamp := ts 0 }
  , { type := LineKind.output, content := "Compiling " ++ name ++ "...", timestamp := ts 1 }
  , { type := LineKind.output, content := "Linking objects...", timestamp := ts 2 }
  , { type := LineKind.system, content := "$ ./output", timestamp := ts 3 }
  , { type := LineKind.system, content := "Note: This is a frontend simulation. Native system execution is restricted in the browser environment.", timestamp := ts 4 }
  , { type := LineKind.system, content := "Process finished with exit code 0", timestamp := ts 5 } ]

/-- runCode of src/App.tsx lines 48-69, observed at completion: refused as a
no-op while isRunning; otherwise it clears the log, appends the six scripted
lines for the active file, and ends with isRunning false. none models the
crash of activeFile.name when the collection is empty. -/
def runCode (s : AppState) (ts : Nat → Nat) : Option AppState :=
  if s.isRunning then some s
  else
    match activeFile s with
    | none => none
    | some f => some { s with isRunning := false, terminalLines := runLines f.name ts }

/-- The states of one complete runCode invocation that are observable from
outside the handler: the three await suspension points (after appends 1, 2
and 3, src/App.tsx lines 56, 59, 62) and the synchronous tail ending in
setIsRunning(false). Empty when the call is refused or crashes. -/
def runCodeStates (s : AppState) (ts : Nat → Nat) : List AppState :=
  if s.isRunning then []
  else
    match activeFile s with
    | none => []
    | some f =>
      [ { s with isRunning := true, terminalLines := (runLines f.name ts).take 1 }
      , { s with isRunning := true, terminalLines := (runLines f.name ts).take 2 }
      , { s with isRunning := true, terminalLines := (runLines f.name ts).take 3 }
      , { s with isRunning := false, terminalLines := runLines f.name ts } ]

/-- Character-level model of the JavaScript split('.') used on the file name
(src/App.tsx line 74); "".split('.') is [""]. -/
def splitOnDot : List Char → List (List Char)
  | [] => [[]]
  | c :: rest =>
    if c = '.' then [] :: splitOnDot rest
    else
      match splitOnDot rest with
      | [] => [[c]]
      | g :: gs => (c :: g) :: gs

/-- ASCII model of JavaScript toLowerCase applied to one character. -/
def lowerChar (c : Char) : Char := c.toLower

/-- name.split('.').pop()?.toLowerCase() of src/App.tsx line 74. -/
def extOf (name : String) : String :=
  String.mk (((splitOnDot name.data).getLastD []).map lowerChar)

/-- Outcome of createNewFile: the prompt was cancelled or empty (silent
return at line 73), the alert of line 80 was shown, or a file was created. -/
inductive CreateOutcome where
  | cancelled
  | invalidExt
  | created
  deriving DecidableEq, Repr

/-- Skeleton content seeded into a new buffer, src/App.tsx line 88. -/
def skeletonFor : Lang → String
  | Lang.cpp => "#include <iostream>\n\nint main() \x7b\n    return 0;\n\x7d"
  | Lang.c => "#include <stdio.h>\n\nint main() \x7b\n    return 0;\n\x7d"

/-- Construction and insertion of the new buffer, src/App.tsx lines 84-91:
build newFile, append it to the collection, make it active. -/
def appendNewFile (s : AppState) (name freshId : String) (lang : Lang) : AppState :=
  { s with
    files := s.files ++ [{ id := freshId, name := name, content := skeletonFor lang, language := lang }]
    activeFileId := freshId }

/-- createNewFile of src/App.tsx lines 71-92. nameInput is the prompt result
(none for a cancelled prompt; the empty string is also falsy and returns
silently). freshId stands for the Math.random-generated id of line 85. -/
def createNewFile (s : AppState) (nameInput : Option String) (freshId : String) :
    AppState × CreateOutcome :=
  match nameInput with
  | none => (s, CreateOutcome.cancelled)
  | some name =>
    if name = "" then (s, CreateOutcome.cancelled)
    else
      let ext := extOf name
      if ext = "c" then (appendNewFile s name freshId Lang.c, CreateOutcome.created)
      else if ext = "cpp" ∨ ext = "h" ∨ ext = "hpp" then
        (appendNewFile s name freshId Lang.cpp, CreateOutcome.created)
      else (s, CreateOutcome.invalidExt)

/-- deleteFile of src/App.tsx lines 94-103. confirmed is the confirm() answer.
none models the remaining[0].id crash of line 101, reachable only with
duplicate ids. -/
def deleteFile (s : AppState) (id : String) (confirmed : Bool) : Option AppState :=
  if s.files.length ≤ 1 then some s
  else if ¬ confirmed then some s
  else
    let remaining := s.files.filter (fun f => ! (f.id == id))
    if s.activeFileId = id then
      match remaining.head? with
      | some f => some { s with files := remaining, activeFileId := f.id }
      | none => none
    else some { s with files := remaining }

/-- Lowercase hexadecimal digit, as emitted by JSON.stringify in \u00XX. -/
def hexDigitChar (n : Nat) : Char :=
  if n < 10 then Char.ofNat (48 + n) else Char.ofNat (87 + n)

/-- JSON.stringify escaping of one character inside a string literal
(quote, backslash, the named control escapes, \u00XX for the remaining
control characters, every other character verbatim). -/
def escChar (c : Char) : List Char :=
  if c = '"' then ['\\', '"']
  else if c = '\\' then ['\\', '\\']
  else if c = '\x08' then ['\\', 'b']
  else if c = '\x0c' then ['\\', 'f']
  else if c = '\n' then ['\\', 'n']
  else if c = '\r' then ['\\', 'r']
  else if c = '\t' then ['\\', 't']
  else if c.toNat < 32 then
    ['\\', 'u', '0', '0', hexDigitChar (c.toNat / 16), hexDigitChar (c.toNat % 16)]
  else [c]

/-- JSON escaping of a whole string body (no surrounding quotes). -/
def escString (s : String) : List Char :=
  (s.data.map escChar).flatten

/-- Serialized form of the language field: the runtime strings 'c' / 'cpp'. -/
def langStr : Lang → String
  | Lang.c => "c"
  | Lang.cpp => "cpp"

/-- JSON.stringify of one FileNode object, with the runtime key insertion
order id, name, language, content of src/App.tsx lines 8-12 and 84-88. -/
def fileChars (f : FileNode) : List Char :=
  "\x7b\"id\":\"".data ++ escString f.id
    ++ '"' :: ",\"name\":\"".data ++ escString f.name
    ++ '"' :: ",\"language\":\"".data ++ escString (langStr f.language)
    ++ '"' :: ",\"content\":\"".data ++ escString f.content
    ++ '"' :: "\x7d".data

/-- Comma-separated object list inside the serialized array. -/
def itemsChars : List FileNode → List Char
  | [] => []
  | f :: fs =>
    match fs with
    | [] => fileChars f
    | _ :: _ => fileChars f ++ ',' :: itemsChars fs

/-- Character content of JSON.stringify(files). -/
def filesChars (fs : List FileNode) : List Char :=
  '[' :: itemsChars fs ++ [']']

/-- JSON.stringify(files), the blob written to the durable slot by the
persistence effect of src/App.tsx lines 35-37 and by saveFiles (line 106). -/
def stringifyFiles (fs : List FileNode) : String :=
  String.mk (filesChars fs)

/-- Value of one hexadecimal digit character, accepting both cases as
JSON.parse does. -/
def hexVal (c : Char) : Option Nat :=
  if '0' ≤ c ∧ c ≤ '9' then some (c.toNat - 48)
  else if 'a' ≤ c ∧ c ≤ 'f' then some (c.toNat - 87)
  else if 'A' ≤ c ∧ c ≤ 'F' then some (c.toNat - 55)
  else none

/-- Inverse of the single-character named escapes of a JSON string. -/
def unescChar (e : Char) : Option Char :=
  if e = '"' then some '"'
  else if e = '\\' then some '\\'
  else if e = '/' then some '/'
  else if e = 'b' then some '\x08'
  else if e = 'f' then some '\x0c'
  else if e = 'n' then some '\n'
  else if e = 'r' then some '\r'
  else if e = 't' then some '\t'
  else none

/-- Body of a JSON string literal up to and including the closing quote,
returning the decoded characters and the rest of the input. Fuel only bounds
the recursion; every step consumes at least one input character. -/
def parseJStrAux : Nat → List Char → Option (List Char × List Char)
  | 0, _ => none
  | _ + 1, [] => none
  | fuel + 1, c :: rest =>
    if c = '"' then some ([], rest)
    else if c = '\\' then
      match rest with
      | [] => none
      | e :: rest2 =>
        if e = 'u' then
          match rest2 with
          | h1 :: h2 :: h3 :: h4 :: rest3 =>
            match hexVal h1, hexVal h2, hexVal h3, hexVal h4 with
            | some d1, some d2, some d3, some d4 =>
              let n := ((d1 * 16 + d2) * 16 + d3) * 16 + d4
              if n.isValidChar then
                (parseJStrAux fuel rest3).map (fun p => (Char.ofNat n :: p.1, p.2))
              else none
            | _, _, _, _ => none
          | _ => none
        else
          match unescChar e with
          | some ec => (parseJStrAux fuel rest2).map (fun p => (ec :: p.1, p.2))
          | none => none
    else if c.toNat < 32 then none
    else (parseJStrAux fuel rest).map (fun p => (c :: p.1, p.2))

/-- JSON string body parser with enough fuel for its input. -/
def parseJStr (input : List Char) : Option (List Char × List Char) :=
  parseJStrAux (input.length + 1) input

/-- Consume an expected literal character sequence. -/
def expects : List Char → List Char → Option (List Char)
  | [], input => some input
  | _ :: _, [] => none
  | l :: ls, c :: cs => if c = l then expects ls cs else none

/-- Decode the serialized language field back to the union type. -/
def decodeLang (s : String) : Option Lang :=
  if s = "c" then some Lang.c
  else if s = "cpp" then some Lang.cpp
  else none

/-- Parse one serialized FileNode object and return the rest of the input. -/
def parseFileChars (input : List Char) : Option (FileNode × List Char) := do
  let i1 ← expects "\x7b\"id\":\"".data input
  let (idc, i2) ← parseJStr i1
  let i3 ← expects ",\"name\":\"".data i2
  let (namec, i4) ← parseJStr i3
  let i5 ← expects ",\"language\":\"".data i4
  let (langc, i6) ← parseJStr i5
  let lang ← decodeLang (String.mk langc)
  let i7 ← expects ",\"content\":\"".data i6
  let (contc, i8) ← parseJStr i7
  let i9 ← expects "\x7d".data i8
  pure ({ id := String.mk idc, name := String.mk namec, content := String.mk contc, language := lang }, i9)

/-- Parse the non-empty comma-separated object sequence of the array,
including its closing bracket. -/
def parseItemsAux : Nat → List Char → Option (List FileNode × List Char)
  | 0, _ => none
  | fuel + 1, input => do
    let (f, r) ← parseFileChars input
    match r with
    | [] => none
    | c :: r2 =>
      if c = ']' then some ([f], r2)
      else if c = ',' then (parseItemsAux fuel r2).map (fun p => (f :: p.1, p.2))
      else none

/-- JSON.parse specialised to the exact grammar stringifyFiles emits: a
serialized FileNode array with no surrounding whitespace and the
serializer's key order. On the serializer's image it agrees with
JSON.parse; outside that image it is stricter than JSON.parse (it rejects
whitespace variations and reordered keys that JSON.parse accepts), so a
failure of this parser is used as evidence of a real parse failure only on
inputs that are not valid JSON at all, where JSON.parse fails too. -/
def parseFilesChars (input : List Char) : Option (List FileNode) :=
  match input with
  | [] => none
  | c :: rest =>
    if c = '[' then
      match rest with
      | [] => none
      | c2 :: rest2 =>
        if c2 = ']' then (if rest2 = [] then some [] else none)
        else
          match parseItemsAux (rest.length + 1) rest with
          | some (fs, []) => some fs
          | _ => none
    else none

/-- The files useState initializer of src/App.tsx lines 25-28 applied to the
durable slot content: a missing slot (getItem null) and the falsy empty
string yield INITIAL_FILES; a non-empty blob goes through JSON.parse
(modelled by parseFilesChars, exact on the serializer's image and stricter
elsewhere), whose uncaught failure is the error result. -/
def loadFiles (slot : Option String) : Except String (List FileNode) :=
  match slot with
  | none => Except.ok INITIAL_FILES
  | some saved =>
    if saved = "" then Except.ok INITIAL_FILES
    else
      match parseFilesChars saved.data with
      | some fs => Except.ok fs
      | none => Except.error "SyntaxError"

/-- saveFiles of src/App.tsx lines 105-108: write the serialized collection
to the slot and append the confirmation system line. Returns the new state
and the written blob. -/
def saveFiles (s : AppState) (now : Nat) : AppState × String :=
  (addLine s "System: Workspace saved to local storage." LineKind.system now,
    stringifyFiles s.files)

/-- One user-level file-management event: a createNewFile invocation with its
prompt result and generated id, or a deleteFile invocation with its confirm
answer. -/
inductive Op where
  | create (nameInput : Option String) (freshId : String)
  | delete (id : String) (confirmed : Bool)

/-- Effect of one event on the workspace state. -/
def applyOp (s : AppState) : Op → Option AppState
  | Op.create nameInput freshId => some (createNewFile s nameInput freshId).1
  | Op.delete id confirmed => deleteFile s id confirmed

/-- Ids present in the collection. -/
def idsOf (s : AppState) : List String :=
  s.files.map FileNode.id

/-- Side condition of a create event: the generated id is fresh, which is
what the Math.random id of src/App.tsx line 85 is there to provide. -/
def opFresh (s : AppState) : Op → Prop
  | Op.create _ freshId => freshId ∉ idsOf s
  | Op.delete _ _ => True

/-- Execution of a finite sequence of create/delete events, each create
using a fresh id. -/
inductive Steps : AppState → List Op → AppState → Prop where
  | nil (s : AppState) : Steps s [] s
  | cons {s s' s'' : AppState} {op : Op} {ops : List Op} :
      opFresh s op → applyOp s op = some s' → Steps s' ops s'' → Steps s (op :: ops) s''

/-- Workspace invariant: non-empty collection, duplicate-free ids, and an
active pointer naming a present buffer. -/
def WSinv (s : AppState) : Prop :=
  s.files ≠ [] ∧ (idsOf s).Nodup ∧ s.activeFileId ∈ idsOf s

/-- State reached from the initial workspace by deleting header.h (id "2"),
used to exercise the reachable-state theorems on a one-file collection. -/
def wsAfterDelete : AppState :=
  { initialState with files := initialState.files.filter (fun f => ! (f.id == "2")) }

/-- State after one completed run on the initial workspace with the identity
clock. -/
def runOnce : AppState :=
  { initialState with isRunning := false, terminalLines := runLines "main.cpp" (fun i => i) }

/-- State after a second completed run, with a constant clock. -/
def runTwice : AppState :=
  { runOnce with isRunning := false, terminalLines := runLines "main.cpp" (fun _ => 0) }

lemma one_le_length_escChar (c : Char) : 1 ≤ (escChar c).length := by
  unfold escChar
  split_ifs <;> simp

lemma length_le_length_escList (l : List Char) :
    l.length ≤ ((l.map escChar).flatten).length := by
  induction l with
  | nil => simp
  | cons c t ih =>
    have h1 := one_le_length_escChar c
    simp only [List.map_cons, List.flatten_cons, List.length_append, List.length_cons]
    omega

lemma hexVal_hexDigitChar (n : Nat) (h : n < 16) : hexVal (hexDigitChar n) = some n := by
  interval_cases n <;> decide

lemma parseJStrAux_escList (l : List Char) :
    ∀ (fuel : Nat) (rest : List Char), l.length < fuel →
      parseJStrAux fuel ((l.map escChar).flatten ++ '"' :: rest) = some (l, rest) := by
  induction l with
  | nil =>
    intro fuel rest hf
    cases fuel with
    | zero => omega
    | succ fuel => simp [parseJStrAux]
  | cons c t ih =>
    intro fuel rest hf
    cases fuel with
    | zero => omega
    | succ fuel =>
    have hrec := ih fuel rest (by simp at hf; omega)
    simp only [List.map_cons, List.flatten_cons, List.append_assoc]
    by_cases h1 : c = '"'
    · subst h1
      simp [escChar, parseJStrAux, unescChar, hrec]
    by_cases h2 : c = '\\'
    · subst h2
      simp [escChar, parseJStrAux, unescChar, hrec]
    by_cases h3 : c = '\x08'
    · subst h3
      simp [escChar, parseJStrAux, unescChar, hrec]
    by_cases h4 : c = '\x0c'
    · subst h4
      simp [escChar, parseJStrAux, unescChar, hrec]
    by_cases h5 : c = '\n'
    · subst h5
      simp [escChar, parseJStrAux, unescChar, hrec]
    by_cases h6 : c = '\r'
    · subst h6
      simp [escChar, parseJStrAux, unescChar, hrec]
    by_cases h7 : c = '\t'
    · subst h7
      simp [escChar, parseJStrAux, unescChar, hrec]
    by_cases h8 : c.toNat < 32
    · rw [escChar]
      simp only [if_neg h1, if_neg h2, if_neg h3, if_neg h4, if_neg h5, if_neg h6,
        if_neg h7, if_pos h8]
      have hd : c.toNat / 16 < 16 := by omega
      have hm : c.toNat % 16 < 16 := by omega
      have hn : c.toNat / 16 * 16 + c.toNat % 16 = c.toNat := by omega
      have hv : (c.toNat).isValidChar := Or.inl (by omega)
      have h0 : hexVal '0' = some 0 := rfl
      simp only [List.cons_append, List.nil_append]
      rw [parseJStrAux]
      simp [h0, hexVal_hexDigitChar _ hd, hexVal_hexDigitChar _ hm, hn, hv,
        Char.ofNat_toNat, hrec]
    · rw [escChar]
      simp only [if_neg h1, if_neg h2, if_neg h3, if_neg h4, if_neg h5, if_neg h6,
        if_neg h7, if_neg h8]
      simp only [List.cons_append, List.nil_append]
      rw [parseJStrAux.eq_def]
      simp [h1, h2, h8, hrec]

lemma parseJStr_escString (s : String) (rest : List Char) :
    parseJStr (escString s ++ '"' :: rest) = some (s.data, rest) := by
  have h := length_le_length_escList s.data
  have hlen : s.data.length < (escString s ++ '"' :: rest).length + 1 := by
    simp only [escString] at *
    simp only [List.length_append, List.length_cons]
    omega
  simp only [parseJStr, escString] at *
  exact parseJStrAux_escList s.data _ rest hlen

lemma expects_self (lit : List Char) :
    ∀ rest : List Char, expects lit (lit ++ rest) = some rest := by
  induction lit with
  | nil => intro rest; simp [expects]
  | cons l ls ih => intro rest; simp [expects, ih]

lemma mk_data (s : String) : String.mk s.data = s := rfl

lemma fileNode_eta (f : FileNode) :
    FileNode.mk f.id f.name f.content f.language = f := rfl

lemma escString_langStr (lang : Lang) : escString (langStr lang) = (langStr lang).data := by
  cases lang <;> decide

lemma decodeLang_langStr (lang : Lang) : decodeLang (langStr lang) = some lang := by
  cases lang <;> rfl

lemma parseFileChars_fileChars (f : FileNode) (rest : List Char) :
    parseFileChars (fileChars f ++ rest) = some (f, rest) := by
  simp [parseFileChars, fileChars, expects, parseJStr_escString,
    mk_data, decodeLang_langStr, fileNode_eta]

lemma one_le_length_fileChars (f : FileNode) : 1 ≤ (fileChars f).length := by
  have h7 : ("\x7b\"id\":\"".data).length = 7 := rfl
  simp [fileChars, List.length_append, h7]

lemma length_le_length_itemsChars (fs : List FileNode) :
    fs.length ≤ (itemsChars fs).length + 1 := by
  induction fs with
  | nil => simp
  | cons f t ih =>
    cases t with
    | nil => simp [itemsChars]
    | cons g t2 =>
      have h1 := one_le_length_fileChars f
      rw [itemsChars]
      simp only [List.length_append, List.length_cons] at *
      omega

lemma parseItemsAux_itemsChars (fs : List FileNode) :
    fs ≠ [] → ∀ (fuel : Nat) (rest : List Char), fs.length ≤ fuel →
      parseItemsAux fuel (itemsChars fs ++ ']' :: rest) = some (fs, rest) := by
  induction fs with
  | nil => intro h; exact absurd rfl h
  | cons f t ih =>
    intro _ fuel rest hf
    cases fuel with
    | zero => simp at hf
    | succ fuel =>
      cases t with
      | nil =>
        rw [itemsChars, parseItemsAux]
        simp [parseFileChars_fileChars]
      | cons g t2 =>
        rw [itemsChars, parseItemsAux]
        simp only [List.append_assoc, List.cons_append]
        have hrec := ih (List.cons_ne_nil g t2) fuel rest
          (by simp only [List.length_cons] at hf ⊢; omega)
        simp [parseFileChars_fileChars, hrec]

lemma itemsChars_head (f : FileNode) (t : List FileNode) :
    ∃ w, itemsChars (f :: t) = '\x7b' :: w := by
  have hlit : "\x7b\"id\":\"".data = '\x7b' :: '"' :: 'i' :: 'd' :: '"' :: ':' :: '"' :: [] := rfl
  cases t with
  | nil =>
    rw [itemsChars]
    rw [fileChars, hlit]
    exact ⟨_, rfl⟩
  | cons g t2 =>
    rw [itemsChars]
    rw [fileChars, hlit]
    exact ⟨_, rfl⟩

lemma parseFilesChars_filesChars (fs : List FileNode) :
    parseFilesChars (filesChars fs) = some fs := by
  cases fs with
  | nil => decide
  | cons f t =>
    obtain ⟨w, hw⟩ := itemsChars_head f t
    have hlen := length_le_length_itemsChars (f :: t)
    have hmain := parseItemsAux_itemsChars (f :: t) (List.cons_ne_nil f t)
      ((itemsChars (f :: t) ++ [']']).length + 1) []
      (by simp only [List.length_append, List.length_cons, List.length_nil] at hlen ⊢; omega)
    rw [filesChars]
    simp only [parseFilesChars]
    rw [hw] at hmain ⊢
    simp only [List.cons_append, List.nil_append, List.length_cons, List.length_append,
      List.length_nil] at hmain ⊢
    simp [hmain]

lemma activeFile_mem (s : AppState) (h : s.files ≠ []) :
    ∃ f, activeFile s = some f ∧ f ∈ s.files := by
  unfold activeFile
  cases hfind : s.files.find? (fun f => f.id == s.activeFileId) with
  | some f => exact ⟨f, rfl, List.mem_of_find?_eq_some hfind⟩
  | none =>
    cases hs : s.files with
    | nil => exact absurd hs h
    | cons a t => exact ⟨a, by simp [Option.orElse], by simp⟩

lemma length_remaining {files : List FileNode} (hnd : (files.map FileNode.id).Nodup)
    (id : String) :
    files.length - 1 ≤ (files.filter (fun f => ! (f.id == id))).length := by
  induction files with
  | nil => simp
  | cons f t ih =>
    simp only [List.map_cons, List.nodup_cons] at hnd
    rw [List.filter_cons]
    by_cases hid : f.id = id
    · have hp : (! (f.id == id)) = false := by simp [hid]
      rw [hp]
      have hall : t.filter (fun g => ! (g.id == id)) = t := by
        rw [List.filter_eq_self]
        intro g hg
        have hgi : g.id ≠ id := by
          intro hgid
          apply hnd.1
          rw [hid, ← hgid]
          exact List.mem_map_of_mem FileNode.id hg
        simp [hgi]
      simp [if_neg, hall]
    · have hp : (! (f.id == id)) = true := by simp [hid]
      rw [hp]
      have := ih hnd.2
      simp only [if_true, List.length_cons]
      omega

lemma WSinv_applyOp {s s' : AppState} {op : Op} (hinv : WSinv s) (hfresh : opFresh s op)
    (happ : applyOp s op = some s') : WSinv s' := by
  obtain ⟨hne, hnd, hmem⟩ := hinv
  cases op with
  | create nameInput freshId =>
    simp only [applyOp, Option.some_inj] at happ
    subst happ
    cases nameInput with
    | none => exact ⟨hne, hnd, hmem⟩
    | some name =>
      simp only [createNewFile]
      split_ifs with hnil hc hcpp
      · exact ⟨hne, hnd, hmem⟩
      all_goals try exact ⟨hne, hnd, hmem⟩
      all_goals {
        refine ⟨by simp [appendNewFile], ?_, ?_⟩
        · simp only [appendNewFile, idsOf, List.map_append, List.map_cons, List.map_nil]
          rw [List.nodup_append]
          exact ⟨hnd, List.nodup_singleton _, by
            intro a ha hb
            simp only [List.mem_singleton] at hb
            subst hb
            exact hfresh ha⟩
        · simp [appendNewFile, idsOf]
      }
  | delete id confirmed =>
    simp only [applyOp, deleteFile] at happ
    have hrem : s.files.length - 1 ≤ (s.files.filter (fun f => ! (f.id == id))).length :=
      length_remaining hnd id
    have hndrem : ((s.files.filter (fun f => ! (f.id == id))).map FileNode.id).Nodup :=
      hnd.sublist ((List.filter_sublist s.files).map FileNode.id)
    by_cases hlen : s.files.length ≤ 1
    · rw [if_pos hlen] at happ
      simp only [Option.some_inj] at happ
      subst happ
      exact ⟨hne, hnd, hmem⟩
    · rw [if_neg hlen] at happ
      by_cases hconf : ¬ (confirmed = true)
      · rw [if_pos hconf] at happ
        simp only [Option.some_inj] at happ
        subst happ
        exact ⟨hne, hnd, hmem⟩
      · rw [if_neg hconf] at happ
        have hremne : s.files.filter (fun f => ! (f.id == id)) ≠ [] :=
          List.ne_nil_of_length_pos (by omega)
        by_cases hact : s.activeFileId = id
        · rw [if_pos hact] at happ
          cases hhead : (s.files.filter (fun f => ! (f.id == id))).head? with
          | none => rw [hhead] at happ; exact absurd happ (by simp)
          | some fh =>
            rw [hhead] at happ
            simp only [Option.some_inj] at happ
            subst happ
            refine ⟨hremne, hndrem, ?_⟩
            simp only [idsOf]
            exact List.mem_map_of_mem FileNode.id (List.mem_of_mem_head? hhead)
        · rw [if_neg hact] at happ
          simp only [Option.some_inj] at happ
          subst happ
          refine ⟨hremne, hndrem, ?_⟩
          simp only [idsOf] at hmem ⊢
          obtain ⟨g, hg, hgid⟩ := List.mem_map.mp hmem
          refine List.mem_map.mpr ⟨g, List.mem_filter.mpr ⟨hg, ?_⟩, hgid⟩
          simp only [Bool.not_eq_true', beq_eq_false_iff_ne]
          intro hbad
          exact hact (by rw [← hgid]; exact hbad)

lemma WSinv_Steps {s s' : AppState} {ops : List Op} (h : Steps s ops s') (hinv : WSinv s) :
    WSinv s' := by
  induction h with
  | nil => exact hinv
  | cons hfresh happ hsteps ih => exact ih (WSinv_applyOp hinv hfresh happ)

lemma WSinv_initialState : WSinv initialState :=
  ⟨by decide, by decide, by decide⟩

lemma find?_id_eq_none {files : List FileNode} {id : String}
    (h : id ∉ files.map FileNode.id) :
    files.find? (fun g => g.id == id) = none := by
  rw [List.find?_eq_none]
  intro g hg
  simp only [beq_iff_eq]
  intro heq
  exact h (by rw [← heq]; exact List.mem_map_of_mem FileNode.id hg)

/-- C10: in every state with a non-empty buffer collection the derived
active buffer is total: it is some buffer of the collection, and whenever
the active pointer matches no buffer id the head of the collection is used
instead, so no operation dereferences a missing buffer. -/
theorem activeFile_total_on_nonempty (s : AppState) (h : s.files ≠ []) :
    ∃ f, activeFile s = some f ∧ f ∈ s.files ∧
      (s.activeFileId ∉ idsOf s → activeFile s = s.files.head?) := by
  obtain ⟨f, hf, hmem⟩ := activeFile_mem s h
  refine ⟨f, hf, hmem, ?_⟩
  intro hnot
  have hfind : s.files.find? (fun g => g.id == s.activeFileId) = none :=
    find?_id_eq_none hnot
  unfold activeFile
  rw [hfind]
  rfl

/-- Witness for C10 at the initial workspace. -/
theorem activeFile_total_on_nonempty_witness :
    initialState.files ≠ [] ∧
      ∃ f, activeFile initialState = some f ∧ f ∈ initialState.files ∧
        (initialState.activeFileId ∉ idsOf initialState →
          activeFile initialState = initialState.files.head?) :=
  ⟨by decide, activeFile_total_on_nonempty initialState (by decide)⟩

/-- C8 as stated is refuted: "zzz" names no buffer of the initial
workspace, yet setActiveFile("zzz") is not a no-op; it changes the
workspace state (the active pointer becomes the dangling id "zzz"). -/
theorem setActiveFile_missing_id_changes_state :
    "zzz" ∉ idsOf initialState ∧ setActiveFile initialState "zzz" ≠ initialState ∧
      (setActiveFile initialState "zzz").activeFileId = "zzz" :=
  ⟨by decide, by decide, rfl⟩

/-- C8 amended: setActiveFile(id) is the raw state setter; it always sets
the active pointer to id (even for an id naming no buffer) and changes
nothing else, and when the id is dangling the derived active buffer falls
back to the head of the collection. -/
theorem setActiveFile_unconditional (s : AppState) (id : String) (h : id ∉ idsOf s) :
    (setActiveFile s id).activeFileId = id ∧ (setActiveFile s id).files = s.files ∧
      activeFile (setActiveFile s id) = s.files.head? := by
  refine ⟨rfl, rfl, ?_⟩
  have hfind : s.files.find? (fun g => g.id == id) = none := find?_id_eq_none h
  unfold activeFile setActiveFile
  simp only []
  rw [hfind]
  rfl

/-- Witness for the amended C8 at the initial workspace and id "zzz". -/
theorem setActiveFile_unconditional_witness :
    "zzz" ∉ idsOf initialState ∧
      ((setActiveFile initialState "zzz").activeFileId = "zzz" ∧
        (setActiveFile initialState "zzz").files = initialState.files ∧
        activeFile (setActiveFile initialState "zzz") = initialState.files.head?) :=
  ⟨by decide, setActiveFile_unconditional initialState "zzz" (by decide)⟩

/-- C5 as stated is refuted at the empty file name: its extension "" lies
outside the supported set, yet createNewFile aborts silently through the
falsy-name early return, without reporting the invalid-extension error the
claim demands (the state is indeed unchanged). -/
theorem createNewFile_empty_name_silent :
    extOf "" ≠ "c" ∧ extOf "" ≠ "cpp" ∧ extOf "" ≠ "h" ∧ extOf "" ≠ "hpp" ∧
      (createNewFile initialState (some "") "x9").2 = CreateOutcome.cancelled ∧
      CreateOutcome.cancelled ≠ CreateOutcome.invalidExt ∧
      (createNewFile initialState (some "") "x9").1 = initialState :=
  ⟨by decide, by decide, by decide, by decide, by decide, by decide, by decide⟩

/-- C5 amended: for every non-empty file name whose extension is outside
the set of c, cpp, h, hpp, createNewFile reports the invalid-extension
error (no exception) and leaves the state, collection and active pointer
included, unchanged; a cancelled prompt or empty name aborts silently,
also with no state change. -/
theorem createNewFile_invalid_ext_rejected (s : AppState) (name freshId : String)
    (hne : name ≠ "") (hc : extOf name ≠ "c") (hcpp : extOf name ≠ "cpp")
    (hh : extOf name ≠ "h") (hhpp : extOf name ≠ "hpp") :
    (createNewFile s (some name) freshId).1 = s ∧
      (createNewFile s (some name) freshId).2 = CreateOutcome.invalidExt ∧
      (createNewFile s none freshId).1 = s ∧
      (createNewFile s (some "") freshId).1 = s := by
  unfold createNewFile
  simp [hne, hc, hcpp, hh, hhpp]

/-- Witness for the amended C5 at the name "foo.txt". -/
theorem createNewFile_invalid_ext_rejected_witness :
    "foo.txt" ≠ "" ∧ extOf "foo.txt" ≠ "c" ∧
      ((createNewFile initialState (some "foo.txt") "x9").1 = initialState ∧
        (createNewFile initialState (some "foo.txt") "x9").2 = CreateOutcome.invalidExt ∧
        (createNewFile initialState none "x9").1 = initialState ∧
        (createNewFile initialState (some "") "x9").1 = initialState) :=
  ⟨by decide, by decide,
    createNewFile_invalid_ext_rejected initialState "foo.txt" "x9" (by decide)
      (by decide) (by decide) (by decide) (by decide)⟩

/-- C4 as stated is refuted: a durable slot holding the unreadable blob
"oops" does not fall back to the seed set; the JSON parse fails and the
initializer propagates the error instead of returning INITIAL_FILES. -/
theorem loadFiles_malformed_errors :
    loadFiles (some "oops") = Except.error "SyntaxError" ∧
      loadFiles (some "oops") ≠ Except.ok INITIAL_FILES := by
  refine ⟨rfl, ?_⟩
  intro h
  rw [show loadFiles (some "oops") = Except.error "SyntaxError" from rfl] at h
  exact Except.noConfusion h

/-- C4 amended: an absent slot, and the falsy empty blob, silently fall
back to the built-in seed pair main.cpp / header.h with no error; a present
blob that is not valid JSON does not fall back: the parse failure
propagates and the load fails. The malformed case is stated for blobs whose
first character is a lowercase letter other than t, f, n: no JSON text may
begin with such a character (a JSON value starts with a brace, a bracket, a
quote, a digit, a minus sign, or the keywords true/false/null after
optional whitespace), so the real JSON.parse of line 27 throws on this
whole class exactly as the model does. -/
theorem loadFiles_fallback_behavior (blob : String) (c : Char) (rest : List Char)
    (hdata : blob.data = c :: rest) (hlo : 'a' ≤ c) (hhi : c ≤ 'z')
    (ht : c ≠ 't') (hf : c ≠ 'f') (hn : c ≠ 'n') :
    loadFiles none = Except.ok INITIAL_FILES ∧
      loadFiles (some "") = Except.ok INITIAL_FILES ∧
      INITIAL_FILES.map FileNode.name = ["main.cpp", "header.h"] ∧
      loadFiles (some blob) = Except.error "SyntaxError" := by
  refine ⟨rfl, rfl, by decide, ?_⟩
  have hne : blob ≠ "" := by
    intro h
    rw [h] at hdata
    exact List.noConfusion hdata
  have hc : ¬ c = '[' := by
    intro h
    subst h
    exact absurd hlo (by decide)
  have hparse : parseFilesChars (c :: rest) = none := by
    simp only [parseFilesChars]
    rw [if_neg hc]
  simp only [loadFiles]
  rw [if_neg hne, hdata, hparse]

/-- Witness for the amended C4 at the malformed blob "oops", whose first
character o can start no JSON value. -/
theorem loadFiles_fallback_behavior_witness :
    "oops".data = 'o' :: 'o' :: 'p' :: 's' :: [] ∧
      ('a' ≤ 'o' ∧ 'o' ≤ 'z' ∧ 'o' ≠ 't' ∧ 'o' ≠ 'f' ∧ 'o' ≠ 'n') ∧
      (loadFiles none = Except.ok INITIAL_FILES ∧
        loadFiles (some "") = Except.ok INITIAL_FILES ∧
        INITIAL_FILES.map FileNode.name = ["main.cpp", "header.h"] ∧
        loadFiles (some "oops") = Except.error "SyntaxError") :=
  ⟨rfl, ⟨by decide, by decide, by decide, by decide, by decide⟩,
    loadFiles_fallback_behavior "oops" 'o' ('o' :: 'p' :: 's' :: []) rfl (by decide)
      (by decide) (by decide) (by decide) (by decide)⟩

/-- C6: serializing any buffer collection into the durable slot and loading
it back yields the identical collection, buffer for buffer and field for
field, in order. -/
theorem persist_load_roundtrip (fs : List FileNode) :
    loadFiles (some (stringifyFiles fs)) = Except.ok fs := by
  have hne : stringifyFiles fs ≠ "" := by
    intro h
    have hd := congrArg String.data h
    rw [show (stringifyFiles fs).data = filesChars fs from rfl] at hd
    rw [show ("" : String).data = ([] : List Char) from rfl] at hd
    simp [filesChars] at hd
  simp only [loadFiles]
  rw [if_neg hne]
  rw [show (stringifyFiles fs).data = filesChars fs from rfl]
  rw [parseFilesChars_filesChars]

/-- C2: along every finite trace of create/delete events starting from the
initial workspace (each create drawing a fresh id, which is what the random
id generator provides), the buffer collection is never empty; and a
deleteFile aimed at the only remaining buffer is refused outright, leaving
the state unchanged. -/
theorem buffers_never_empty {ops : List Op} {s : AppState}
    (h : Steps initialState ops s) :
    s.files ≠ [] ∧ ∀ (id : String) (confirmed : Bool),
      s.files.length = 1 → deleteFile s id confirmed = some s := by
  have hinv := WSinv_Steps h WSinv_initialState
  refine ⟨hinv.1, ?_⟩
  intro id confirmed hlen
  unfold deleteFile
  rw [if_pos (by omega)]

/-- Witness for C2 on the concrete trace that deletes header.h, leaving the
single buffer main.cpp, on which any further delete is refused. -/
theorem buffers_never_empty_witness :
    wsAfterDelete.files.length = 1 ∧
      (wsAfterDelete.files ≠ [] ∧ ∀ (id : String) (confirmed : Bool),
        wsAfterDelete.files.length = 1 →
          deleteFile wsAfterDelete id confirmed = some wsAfterDelete) := by
  have hsteps : Steps initialState [Op.delete "2" true] wsAfterDelete :=
    Steps.cons (show opFresh initialState (Op.delete "2" true) from trivial) (by decide)
      (Steps.nil wsAfterDelete)
  exact ⟨by decide, buffers_never_empty hsteps⟩

/-- C3: in every state reachable from the initial workspace, after any
deleteFile the active pointer names a buffer of the resulting collection;
and when the deleted buffer was the active one the pointer is reassigned to
the head of the remaining collection in its current order. -/
theorem deleteFile_active_pointer_valid {ops : List Op} {s : AppState}
    (h : Steps initialState ops s) (id : String) (confirmed : Bool) (s' : AppState)
    (hdel : deleteFile s id confirmed = some s') :
    s'.activeFileId ∈ idsOf s' ∧
      (1 < s.files.length → confirmed = true → s.activeFileId = id →
        s'.files = s.files.filter (fun f => ! (f.id == id)) ∧
        ∃ fh, (s.files.filter (fun f => ! (f.id == id))).head? = some fh ∧
          s'.activeFileId = fh.id) := by
  have hinv := WSinv_Steps h WSinv_initialState
  have hfresh : opFresh s (Op.delete id confirmed) := trivial
  have hval : WSinv s' := WSinv_applyOp hinv hfresh hdel
  refine ⟨hval.2.2, ?_⟩
  intro hlen hconf hact
  unfold deleteFile at hdel
  rw [if_neg (by omega), if_neg (by simp [hconf]), if_pos hact] at hdel
  cases hhead : (s.files.filter (fun f => ! (f.id == id))).head? with
  | none =>
    have h1 := length_remaining hinv.2.1 id
    rw [List.head?_eq_none_iff] at hhead
    have h2 := congrArg List.length hhead
    simp only [List.length_nil] at h2
    omega
  | some fh =>
    rw [hhead] at hdel
    simp only [Option.some_inj] at hdel
    subst hdel
    exact ⟨rfl, fh, rfl, rfl⟩

/-- Witness for C3: deleting the active buffer main.cpp (id "1") from the
initial workspace moves the pointer to header.h, the head of the remaining
collection. -/
theorem deleteFile_active_pointer_valid_witness :
    deleteFile initialState "1" true =
      some { initialState with
        files := initialState.files.filter (fun f => ! (f.id == "1"))
        activeFileId := "2" } ∧
      (({ initialState with
            files := initialState.files.filter (fun f => ! (f.id == "1"))
            activeFileId := "2" } : AppState).activeFileId ∈
          idsOf { initialState with
            files := initialState.files.filter (fun f => ! (f.id == "1"))
            activeFileId := "2" } ∧
        (1 < initialState.files.length → true = true → initialState.activeFileId = "1" →
          ({ initialState with
              files := initialState.files.filter (fun f => ! (f.id == "1"))
              activeFileId := "2" } : AppState).files =
            initialState.files.filter (fun f => ! (f.id == "1")) ∧
          ∃ fh, (initialState.files.filter (fun f => ! (f.id == "1"))).head? = some fh ∧
            ({ initialState with
                files := initialState.files.filter (fun f => ! (f.id == "1"))
                activeFileId := "2" } : AppState).activeFileId = fh.id)) := by
  have hdel : deleteFile initialState "1" true =
      some { initialState with
        files := initialState.files.filter (fun f => ! (f.id == "1"))
        activeFileId := "2" } := by decide
  exact ⟨hdel, deleteFile_active_pointer_valid (Steps.nil initialState) "1" true _ hdel⟩

/-- C1 as stated is refuted on the initial workspace: a completed run
appends six console lines, not five. -/
theorem runCode_initial_six_not_five :
    (runCode initialState (fun i => i)).map (fun st => st.terminalLines.length) = some 6 ∧
      (6 : Nat) ≠ 5 :=
  ⟨by decide, by decide⟩

/-- C1 amended: from any idle state with a non-empty collection, a
completed run leaves exactly six console entries; the first is a
system-kind line whose content embeds the active file's name inside the
synthetic compile command, and the last is the system-kind line reporting
the synthetic zero exit code. -/
theorem runCode_log_six_lines (s : AppState) (ts : Nat → Nat)
    (hrun : s.isRunning = false) (hfiles : s.files ≠ []) :
    ∃ s' f, runCode s ts = some s' ∧ activeFile s = some f ∧
      s'.terminalLines.length = 6 ∧
      s'.terminalLines.head? = some { type := LineKind.system, content := "$ g++ " ++ f.name ++ " -o output", timestamp := ts 0 } ∧
      (∃ pre post, "$ g++ " ++ f.name ++ " -o output" = pre ++ f.name ++ post) ∧
      s'.terminalLines.getLast? = some { type := LineKind.system, content := "Process finished with exit code 0", timestamp := ts 5 } := by
  obtain ⟨f, hf, _⟩ := activeFile_mem s hfiles
  have hrc : runCode s ts =
      some { s with isRunning := false, terminalLines := runLines f.name ts } := by
    unfold runCode
    rw [if_neg (by simp [hrun]), hf]
  exact ⟨_, f, hrc, hf, rfl, rfl, ⟨"$ g++ ", " -o output", rfl⟩, rfl⟩

/-- Witness for the amended C1 on the initial workspace. -/
theorem runCode_log_six_lines_witness :
    initialState.isRunning = false ∧ initialState.files ≠ [] ∧
      (∃ s' f, runCode initialState (fun i => i) = some s' ∧
        activeFile initialState = some f ∧
        s'.terminalLines.length = 6 ∧
        s'.terminalLines.head? = some { type := LineKind.system, content := "$ g++ " ++ f.name ++ " -o output", timestamp := 0 } ∧
        (∃ pre post, "$ g++ " ++ f.name ++ " -o output" = pre ++ f.name ++ post) ∧
        s'.terminalLines.getLast? = some { type := LineKind.system, content := "Process finished with exit code 0", timestamp := 5 }) :=
  ⟨rfl, by decide, runCode_log_six_lines initialState (fun i => i) rfl (by decide)⟩

/-- C9: the running flag is true in every state observable between the
start and the completion of a run and false at completion; and any runCode
invocation made while the flag is true (in particular at those in-flight
states) is refused as a strict no-op that appends nothing and changes
nothing. -/
theorem running_flag_protocol (s : AppState) (ts : Nat → Nat)
    (hrun : s.isRunning = false) (hfiles : s.files ≠ []) :
    (∀ s2 : AppState, s2.isRunning = true → ∀ ts2, runCode s2 ts2 = some s2) ∧
      (∀ st ∈ (runCodeStates s ts).dropLast, st.isRunning = true ∧
        ∀ ts2, runCode st ts2 = some st) ∧
      (∃ sfin, runCode s ts = some sfin ∧ sfin.isRunning = false ∧
        (runCodeStates s ts).getLast? = some sfin) := by
  obtain ⟨f, hf, _⟩ := activeFile_mem s hfiles
  have hbusy : ∀ s2 : AppState, s2.isRunning = true → ∀ ts2, runCode s2 ts2 = some s2 := by
    intro s2 h2 ts2
    unfold runCode
    rw [if_pos h2]
  have htrace : runCodeStates s ts =
      [ { s with isRunning := true, terminalLines := (runLines f.name ts).take 1 }
      , { s with isRunning := true, terminalLines := (runLines f.name ts).take 2 }
      , { s with isRunning := true, terminalLines := (runLines f.name ts).take 3 }
      , { s with isRunning := false, terminalLines := runLines f.name ts } ] := by
    unfold runCodeStates
    rw [if_neg (by simp [hrun]), hf]
  refine ⟨hbusy, ?_, ?_⟩
  · rw [htrace]
    intro st hst
    simp only [List.dropLast, List.mem_cons, List.not_mem_nil, or_false] at hst
    rcases hst with rfl | rfl | rfl
    · exact ⟨rfl, fun ts2 => hbusy _ rfl ts2⟩
    · exact ⟨rfl, fun ts2 => hbusy _ rfl ts2⟩
    · exact ⟨rfl, fun ts2 => hbusy _ rfl ts2⟩
  · refine ⟨{ s with isRunning := false, terminalLines := runLines f.name ts }, ?_, rfl, ?_⟩
    · unfold runCode
      rw [if_neg (by simp [hrun]), hf]
    · rw [htrace]
      rfl

/-- Witness for C9 on the initial workspace. -/
theorem running_flag_protocol_witness :
    initialState.isRunning = false ∧ initialState.files ≠ [] ∧
      ((∀ s2 : AppState, s2.isRunning = true → ∀ ts2, runCode s2 ts2 = some s2) ∧
        (∀ st ∈ (runCodeStates initialState (fun i => i)).dropLast, st.isRunning = true ∧
          ∀ ts2, runCode st ts2 = some st) ∧
        (∃ sfin, runCode initialState (fun i => i) = some sfin ∧ sfin.isRunning = false ∧
          (runCodeStates initialState (fun i => i)).getLast? = some sfin)) :=
  ⟨rfl, by decide, running_flag_protocol initialState (fun i => i) rfl (by decide)⟩

/-- C7: after two complete back-to-back runs the console log is exactly the
second run's six lines, none of the first run's lines surviving the clear;
and within a single run the log is append-only: at any two observable
points of the run, the earlier log is a prefix of the later one, so no line
is mutated after being appended. -/
theorem second_run_log_exact (s : AppState) (ts1 ts2 : Nat → Nat)
    (hrun : s.isRunning = false) (hfiles : s.files ≠ [])
    (s1 s2 : AppState) (h1 : runCode s ts1 = some s1) (h2 : runCode s1 ts2 = some s2) :
    (∃ f, activeFile s1 = some f ∧ s2.terminalLines = runLines f.name ts2) ∧
      (∀ (i j : Nat) (a b : AppState), i ≤ j →
        (runCodeStates s ts1)[i]? = some a → (runCodeStates s ts1)[j]? = some b →
        ∃ u, b.terminalLines = a.terminalLines ++ u) := by
  obtain ⟨f, hf, _⟩ := activeFile_mem s hfiles
  have hrc : runCode s ts1 =
      some { s with isRunning := false, terminalLines := runLines f.name ts1 } := by
    unfold runCode
    rw [if_neg (by simp [hrun]), hf]
  rw [hrc] at h1
  simp only [Option.some_inj] at h1
  subst h1
  have hf1 : activeFile { s with isRunning := false, terminalLines := runLines f.name ts1 } = some f := hf
  have hrc2 : runCode { s with isRunning := false, terminalLines := runLines f.name ts1 } ts2 =
      some { s with isRunning := false, terminalLines := runLines f.name ts2 } := by
    unfold runCode
    rw [if_neg (by simp), hf1]
  rw [hrc2] at h2
  simp only [Option.some_inj] at h2
  subst h2
  refine ⟨⟨f, hf1, rfl⟩, ?_⟩
  have htrace : runCodeStates s ts1 =
      [ { s with isRunning := true, terminalLines := (runLines f.name ts1).take 1 }
      , { s with isRunning := true, terminalLines := (runLines f.name ts1).take 2 }
      , { s with isRunning := true, terminalLines := (runLines f.name ts1).take 3 }
      , { s with isRunning := false, terminalLines := runLines f.name ts1 } ] := by
    unfold runCodeStates
    rw [if_neg (by simp [hrun]), hf]
  intro i j a b hij ha hb
  rw [htrace] at ha hb
  have hj : j < 4 := by
    by_contra hge
    rw [List.getElem?_eq_none (by simp only [List.length_cons, List.length_nil]; omega)] at hb
    exact Option.noConfusion hb
  have hi : i < 4 := by omega
  interval_cases j <;> interval_cases i <;>
    simp only [List.getElem?_cons_zero, List.getElem?_cons_succ, Option.some_inj] at ha hb <;>
    subst ha <;> subst hb <;> exact ⟨_, rfl⟩

/-- Witness for C7: two back-to-back runs on the initial workspace. -/
theorem second_run_log_exact_witness :
    initialState.isRunning = false ∧ initialState.files ≠ [] ∧
      runCode initialState (fun i => i) = some runOnce ∧
      runCode runOnce (fun _ => 0) = some runTwice ∧
      ((∃ f, activeFile runOnce = some f ∧ runTwice.terminalLines = runLines f.name (fun _ => 0)) ∧
        (∀ (i j : Nat) (a b : AppState), i ≤ j →
          (runCodeStates initialState (fun i => i))[i]? = some a →
          (runCodeStates initialState (fun i => i))[j]? = some b →
          ∃ u, b.terminalLines = a.terminalLines ++ u)) := by
  have h1 : runCode initialState (fun i => i) = some runOnce := by decide
  have h2 : runCode runOnce (fun _ => 0) = some runTwice := by decide
  exact ⟨rfl, by decide, h1, h2,
    second_run_log_exact initialState (fun i => i) (fun _ => 0) rfl (by decide)
      runOnce runTwice h1 h2⟩

end CppForge

